import Mathlib

set_option maxRecDepth 100000

/-!
Verification development for the date-course recommendation app (`app.py`).

The post-processing pipeline of the app is shallowly embedded here:

* Python strings are modelled as `String` / `List Char`;
* the specific `re` patterns used by the source are modelled by a small
  backtracking matcher (`RE` / `mmatch`) that implements exactly the
  constructs those patterns use (literals, character classes, bounded and
  unbounded greedy / non-greedy repetition of a character class, grouping,
  alternation, lookahead, and non-MULTILINE `$`), with Python's leftmost
  match, left-biased alternation and shortest/longest-first repetition
  semantics;
* `\d`, `\s`, `str.lower`, `str.strip` are modelled on their ASCII
  behaviour (all inputs appearing in the program are Korean text plus
  ASCII, on which the Python and the modelled behaviour agree);
* network calls (`requests.get` in `get_place_info`) are modelled by an
  oracle `fetch : String → Option String` returning `none` on absence or
  failure, exactly as the `try/except` wrapper in the source does;
* `time.sleep(1)` is modelled by counting: `update_place_ratings` returns
  the number of sleeps it performs alongside its text result.
-/

namespace DateCourse

/-! ### Python string helpers -/

/-- Whitespace as recognised by Python's `str.strip()` / the regex class
`\s` (ASCII part; the inputs in this program contain no exotic Unicode
whitespace). -/
def isPySpace (c : Char) : Bool :=
  c == ' ' || c == '\t' || c == '\n' || c == '\r' || c == '\x0b' || c == '\x0c'

/-- `str.strip()` on a character list. -/
def pyStripL (cs : List Char) : List Char :=
  ((cs.dropWhile isPySpace).reverse.dropWhile isPySpace).reverse

/-- `str.strip()`. -/
def pyStrip (s : String) : String := String.mk (pyStripL s.data)

/-- `str.lower()` (ASCII case folding; identity on the Korean text used
throughout the program, as in Python). -/
def pyLower (s : String) : String := String.mk (s.data.map Char.toLower)

/-- Python's `needle in hay` substring test on lists (`"" in s` is true,
as in Python). -/
def isSubstrL (needle : List Char) : List Char → Bool
  | [] => needle.isPrefixOf []
  | c :: t => needle.isPrefixOf (c :: t) || isSubstrL needle t

/-- Python's `needle in hay` substring test. -/
def isSubstr (needle hay : String) : Bool := isSubstrL needle.data hay.data

/-- `int()` on a nonempty string of ASCII digits. -/
def digitsToNat (cs : List Char) : Nat :=
  cs.foldl (fun acc c => acc * 10 + (c.toNat - '0'.toNat)) 0

/-- Python's `f"{n:02d}"` for a nonnegative value. -/
def pad2 (n : Nat) : String :=
  if n < 10 then "0" ++ toString n else toString n

/-- Concatenation of a list of character lists. -/
def joinL (l : List (List Char)) : List Char := l.foldr (· ++ ·) []

/-- `''.join` on strings. -/
def joinStr (l : List String) : String := String.mk (joinL (l.map String.data))

/-- `"\n".join` on strings. -/
def joinLines (l : List String) : String :=
  match l with
  | [] => ""
  | [x] => x
  | x :: xs => x ++ "\n" ++ joinLines xs

/-! ### A matcher for the regex subset used by `app.py`

Every repetition in the source's patterns is a repetition of a single
character class (`\d+`, `\s*`, `[^\n]+`, `.*?`, `[^)]*`, `\**`,
`\d{1,2}`, `\d{4}`, `\d{2}`), so the `rep` constructor repeats a
character predicate.  Backtracking is implemented in
continuation-passing style, which yields exactly Python's behaviour:
alternation prefers its left branch, greedy repetition tries longer
counts first, non-greedy repetition shorter counts first, and a
lookahead is atomic (never re-entered on later failure). -/

/-- Capture environment: most recent capture of each group first. -/
abbrev Caps := List (Nat × List Char)

inductive RE where
  /-- a literal character sequence -/
  | lit  : List Char → RE
  /-- repetition of a character class: predicate, min count, optional max
  count (`none` = unbounded), greediness -/
  | rep  : (Char → Bool) → Nat → Option Nat → Bool → RE
  | seq  : RE → RE → RE
  | alt  : RE → RE → RE
  /-- capturing group -/
  | grp  : Nat → RE → RE
  /-- lookahead `(?=...)` -/
  | look : RE → RE
  /-- `$` without `re.MULTILINE`: end of text, or just before a final newline -/
  | eos  : RE

/-- First success over a list of candidates. -/
def firstSome (l : List Nat) (f : Nat → Option (List Char × Caps)) :
    Option (List Char × Caps) :=
  match l with
  | [] => none
  | a :: as =>
    match f a with
    | some r => some r
    | none => firstSome as f

/-- Candidate repetition counts, in the order Python tries them:
longest first when greedy, shortest first otherwise.  `run` is the length
of the maximal run of class characters at the current position. -/
def countsFor (run lo : Nat) (hi : Option Nat) (greedy : Bool) : List Nat :=
  if lo > min (hi.getD run) run then []
  else if greedy then ((List.range (min (hi.getD run) run - lo + 1)).map (lo + ·)).reverse
  else (List.range (min (hi.getD run) run - lo + 1)).map (lo + ·)

/-- The backtracking matcher.  `mmatch r cs caps k` attempts to match `r`
at the start of `cs` and passes the remaining input and captures to the
continuation `k`; `none` means no way of matching `r` makes `k` succeed. -/
def mmatch : RE → List Char → Caps →
    (List Char → Caps → Option (List Char × Caps)) → Option (List Char × Caps)
  | .lit s, cs, caps, k => if s.isPrefixOf cs then k (cs.drop s.length) caps else none
  | .rep p lo hi g, cs, caps, k =>
    firstSome (countsFor (cs.takeWhile p).length lo hi g) fun n => k (cs.drop n) caps
  | .seq a b, cs, caps, k => mmatch a cs caps fun cs1 c1 => mmatch b cs1 c1 k
  | .alt a b, cs, caps, k =>
    match mmatch a cs caps k with
    | some r => some r
    | none => mmatch b cs caps k
  | .grp i a, cs, caps, k =>
    mmatch a cs caps fun cs1 c1 => k cs1 ((i, cs.take (cs.length - cs1.length)) :: c1)
  | .look a, cs, caps, k =>
    match mmatch a cs caps (fun cs1 c1 => some (cs1, c1)) with
    | some _ => k cs caps
    | none => none
  | .eos, cs, caps, k => if cs == [] || cs == ['\n'] then k cs caps else none

/-- `re.search` scanning: try each start position from the left; at the
first position where the pattern matches, return
(whole match, captures, rest of input after the match). -/
def searchAux (r : RE) : List Char → Option (List Char × Caps × List Char)
  | [] =>
    match mmatch r [] [] (fun rest caps => some (rest, caps)) with
    | some (rest, caps) => some ([], caps, rest)
    | none => none
  | c :: cs1 =>
    match mmatch r (c :: cs1) [] (fun rest caps => some (rest, caps)) with
    | some (rest, caps) =>
      some ((c :: cs1).take ((c :: cs1).length - rest.length), caps, rest)
    | none => searchAux r cs1

/-- `re.search` on a string: `(whole match, captures)` or `none`. -/
def pySearch (r : RE) (s : String) : Option (List Char × Caps) :=
  (searchAux r s.data).map fun x => (x.1, x.2.1)

/-- `match.group(i)`: `none` when the group did not participate. -/
def capGet (caps : Caps) (i : Nat) : Option (List Char) :=
  (caps.find? (fun x => x.1 == i)).map (·.2)

/-- `match.group(i)` as a string, empty when unset (as `re.findall` does). -/
def capStr (caps : Caps) (i : Nat) : String := String.mk ((capGet caps i).getD [])

/-- `re.findall` worker; `fuel` bounds the number of matches (the input
length plus one always suffices). -/
def findallAux (r : RE) : Nat → List Char → List (List Char × Caps)
  | 0, _ => []
  | fuel + 1, cs =>
    match searchAux r cs with
    | none => []
    | some (whole, caps, rest) =>
      if whole.isEmpty then
        match rest with
        | [] => [([], caps)]
        | _ :: rest1 => ([], caps) :: findallAux r fuel rest1
      else
        (whole, caps) :: findallAux r fuel rest

/-- `re.findall` on a string. -/
def pyFindall (r : RE) (s : String) : List (List Char × Caps) :=
  findallAux r (s.data.length + 1) s.data

/-- `re.sub` worker (all occurrences, literal replacement text; every
replacement string the program builds is free of backslash escapes). -/
def gsubAux (r : RE) (repl : List Char) : Nat → List Char → List Char
  | 0, cs => cs
  | fuel + 1, cs =>
    match searchAux r cs with
    | none => cs
    | some (whole, _, rest) =>
      let pre := cs.take (cs.length - whole.length - rest.length)
      if whole.isEmpty then
        match rest with
        | [] => pre ++ repl
        | c :: rest1 => pre ++ repl ++ [c] ++ gsubAux r repl fuel rest1
      else
        pre ++ repl ++ gsubAux r repl fuel rest

/-- `re.sub(pattern, repl, s)` on strings. -/
def pySub (r : RE) (repl s : String) : String :=
  String.mk (gsubAux r repl.data (s.data.length + 1) s.data)

/-! ### The patterns of `app.py` -/

/-- Sequence of regex pieces. -/
def reSeq (l : List RE) : RE := l.foldr RE.seq (.lit [])

/-- A literal string piece. -/
def reStr (s : String) : RE := .lit s.data

/-- `\d+` -/
def reDigits1 : RE := .rep Char.isDigit 1 none true

/-- `\d{1,2}` -/
def reD12 : RE := .rep Char.isDigit 1 (some 2) true

/-- `\d{n}` -/
def reDexact (n : Nat) : RE := .rep Char.isDigit n (some n) true

/-- `\s*` -/
def reWs : RE := .rep isPySpace 0 none true

/-- `[^\n]+` -/
def reNotNl1 : RE := .rep (fun c => c != '\n') 1 none true

/-- `.*?` under `re.DOTALL` -/
def reAnyLazy : RE := .rep (fun _ => true) 0 none false

/-- `.*?` without `re.DOTALL` (`.` excludes newline) -/
def reNoNlLazy : RE := .rep (fun c => c != '\n') 0 none false

/-- The course-header literal up to the digits: `### \*\*\[코스 `. -/
def hdrLit : List Char := "### **[코스 ".data

/-- `### \*\*\[코스 \d+\]` — one full course-header marker. -/
def headerRE : RE := reSeq [.lit hdrLit, reDigits1, reStr "]"]

/-- The block pattern of `update_place_ratings` / `update_place_links`
(compiled with `re.DOTALL`):
`(### \*\*\[코스 \d+\].*?)(?=### \*\*\[코스 \d+\]|$)`. -/
def coursePat : RE :=
  .seq (.grp 1 (reSeq [.lit hdrLit, reDigits1, reStr "]", reAnyLazy]))
       (.look (.alt headerRE .eos))

/-- The primary place pattern of `create_timeline` (with `re.DOTALL`):
`\[코스 \d+\]\s*([^\n]+).*?🎯\s*내용:\s*([^\n]+).*?🔗\s*네이버 링크:\s*([^\n]+)`. -/
def primaryPat : RE :=
  reSeq [reStr "[코스 ", reDigits1, reStr "]", reWs, .grp 1 reNotNl1,
         reAnyLazy, reStr "🎯", reWs, reStr "내용:", reWs, .grp 2 reNotNl1,
         reAnyLazy, reStr "🔗", reWs, reStr "네이버 링크:", reWs, .grp 3 reNotNl1]

/-- The fallback place pattern of `create_timeline` (with `re.DOTALL`):
`\[코스 \d+\]\s*([^\n]+).*?🎯\s*내용:\s*([^\n]+)`. -/
def fallbackPat : RE :=
  reSeq [reStr "[코스 ", reDigits1, reStr "]", reWs, .grp 1 reNotNl1,
         reAnyLazy, reStr "🎯", reWs, reStr "내용:", reWs, .grp 2 reNotNl1]

/-- The link pattern of `update_place_ratings`:
`🔗 네이버 링크: (https://place\.naver\.com/[^\n]+)`. -/
def urlPat : RE :=
  .seq (reStr "🔗 네이버 링크: ")
       (.grp 1 (reSeq [reStr "https://place.naver.com/", reNotNl1]))

/-- The rating-line pattern of `update_place_ratings`: `⭐ 별점: [^\n]+`. -/
def ratingLinePat : RE := .seq (reStr "⭐ 별점: ") reNotNl1

/-- The link-line pattern of `update_place_links` (no `re.DOTALL`, so `.`
does not cross the newline): `🔗 네이버 링크:.*?\n`. -/
def linkLinePat : RE := reSeq [reStr "🔗 네이버 링크:", reNoNlLazy, reStr "\n"]

/-- The name pattern of `update_place_links`: `\[코스 \d+\]\s*([^\n]+)`. -/
def namePat : RE := reSeq [reStr "[코스 ", reDigits1, reStr "]", reWs, .grp 1 reNotNl1]

/-- `\([^)]*\)\**` — the cleanup pattern of `search_place`. -/
def parenPat : RE :=
  reSeq [reStr "(", .rep (fun c => c != ')') 0 none true, reStr ")",
         .rep (fun c => c == '*') 0 none true]

/-! ### `DEFAULT_DURATIONS` and the duration lookup of `create_timeline` -/

/-- The `DEFAULT_DURATIONS` dict of `app.py`, in insertion order (Python
dicts iterate in insertion order). -/
def DEFAULT_DURATIONS : List (String × Nat) :=
  [("식사", 90), ("디너", 90), ("런치", 60), ("브런치", 60), ("카페", 60),
   ("술집", 90), ("바", 90), ("산책", 45), ("전시", 90), ("영화", 120),
   ("공연", 120), ("쇼핑", 90), ("default", 60)]

/-- The `for key, value in DEFAULT_DURATIONS.items(): if key in
activity.lower(): duration = value; break` loop; `0` when no key matched
(the sentinel the source initialises `duration` with). -/
def durationLoop : List (String × Nat) → String → Nat
  | [], _ => 0
  | (k, v) :: rest, act => if isSubstr k act then v else durationLoop rest act

/-- Duration estimation exactly as in `create_timeline`: run the loop on
`activity.lower()`; if the sentinel `0` survives, fall back to
`DEFAULT_DURATIONS["default"] = 60`. -/
def estimateDuration (activity : String) : Nat :=
  let d := durationLoop DEFAULT_DURATIONS (pyLower activity)
  if d = 0 then 60 else d

/-! ### `extract_date_time` -/

/-- The date the extraction produces, kept symbolic: the source formats
`datetime` values with `strftime("%Y-%m-%d")`, which we do not model
beyond the day arithmetic.  `fromToday n` is `today + timedelta(days=n)`
(`n = 0` is also the default when no pattern matches); `onDate y m d` is
the `f"{year}-{month:02d}-{day:02d}"` branch, with `y = none` standing
for `today.year`. -/
inductive DateRes where
  | fromToday (days : Nat)
  | onDate (year : Option (List Char)) (month day : Nat)
deriving Repr, DecidableEq

/-- `weekday_map = {"월": 0, ..., "일": 6}`. -/
def weekdayMap : List Char → Nat
  | ['월'] => 0
  | ['화'] => 1
  | ['수'] => 2
  | ['목'] => 3
  | ['금'] => 4
  | ['토'] => 5
  | ['일'] => 6
  | _ => 0

/-- The `date_patterns` list of `extract_date_time`, in source order. -/
def datePatterns : List RE :=
  [reSeq [.alt (.grp 1 (reSeq [reDexact 4, reStr "년", reWs])) (.lit []),
          .grp 2 reD12, reStr "월", reWs, .grp 3 reD12, reStr "일"],
   reStr "오늘",
   reStr "내일",
   reStr "모레",
   reSeq [reStr "다음주", reWs,
          .grp 1 (.rep (fun c => "월화수목금토일".data.contains c) 1 (some 1) true),
          reStr "요일"],
   reSeq [reStr "이번주", reWs,
          .grp 1 (.rep (fun c => "월화수목금토일".data.contains c) 1 (some 1) true),
          reStr "요일"]]

/-- The if/elif chain applied to a date match (`todayW` is
`today.weekday()`); every branch of the source assigns `date_str`, so the
previous value is not needed. -/
def dateFromMatch (todayW : Nat) (whole : List Char) (caps : Caps) : DateRes :=
  if isSubstrL "오늘".data whole then .fromToday 0
  else if isSubstrL "내일".data whole then .fromToday 1
  else if isSubstrL "모레".data whole then .fromToday 2
  else if isSubstrL "다음주".data whole || isSubstrL "이번주".data whole then
    let target : Int := weekdayMap ((capGet caps 1).getD [])
    let days : Int :=
      if isSubstrL "다음주".data whole then target - todayW + 7
      else
        let d := target - (todayW : Int)
        if d ≤ 0 then d + 7 else d
    .fromToday days.toNat
  else
    .onDate ((capGet caps 1).map List.dropLast)
      (digitsToNat ((capGet caps 2).getD []))
      (digitsToNat ((capGet caps 3).getD []))

/-- The date half of `extract_date_time`: every pattern in the list is
tried, and a later successful pattern overwrites an earlier one, exactly
as the source's `for`/`if` loop does. -/
def extractDate (todayW : Nat) (prompt : String) : DateRes :=
  datePatterns.foldl
    (fun cur pat =>
      match pySearch pat prompt with
      | some (whole, caps) => dateFromMatch todayW whole caps
      | none => cur)
    (.fromToday 0)

/-- One entry of the `time_patterns` list: its regex, whether its source
text contains `"오전"` / `"오후"` (the source branches on the *pattern
string*, not on the match), and whether the pattern defines at least two
groups (`len(match.groups()) > 1`). -/
structure TimePat where
  re : RE
  isAm : Bool
  isPm : Bool
  twoGroups : Bool

/-- The `time_patterns` list of `extract_date_time`, in source order. -/
def timePatterns : List TimePat :=
  [⟨reSeq [.grp 1 reD12, reStr "시", reWs, .alt (.grp 2 reD12) (.lit []),
           .alt (reStr "분") (.lit [])], false, false, true⟩,
   ⟨reSeq [.grp 1 reD12, reStr ":", .grp 2 (reDexact 2)], false, false, true⟩,
   ⟨reSeq [.grp 1 reD12, .rep (fun c => c == '시' || c == ':') 1 (some 1) true,
           .grp 2 (reDexact 2)], false, false, true⟩,
   ⟨reSeq [reStr "오전", reWs, .grp 1 reD12, reStr "시"], true, false, false⟩,
   ⟨reSeq [reStr "오후", reWs, .grp 1 reD12, reStr "시"], false, true, false⟩]

/-- The branch applied to a time match. -/
def timeFromMatch (tp : TimePat) (prompt : String) (caps : Caps) : String :=
  let h0 := digitsToNat ((capGet caps 1).getD [])
  let hour :=
    if tp.isAm then h0
    else if tp.isPm then h0 + 12
    else if h0 < 12 && isSubstr "오후" prompt then h0 + 12 else h0
  let minute :=
    if tp.twoGroups then
      match capGet caps 2 with
      | some ds => digitsToNat ds
      | none => 0
    else 0
  pad2 hour ++ ":" ++ pad2 minute

/-- `extract_date_time(prompt)`, with `today` abstracted to its weekday
`todayW`; returns `(date_str, time_str)` with the source's defaults
(today's date, `"17:00"`). -/
def extract_date_time (todayW : Nat) (prompt : String) : DateRes × String :=
  let d := extractDate todayW prompt
  let t := timePatterns.foldl
    (fun cur tp =>
      match pySearch tp.re prompt with
      | some (_, caps) => timeFromMatch tp prompt caps
      | none => cur)
    "17:00"
  (d, t)

/-! ### `create_timeline` -/

/-- `datetime.strptime(s, "%H:%M")`, reduced to minutes past midnight;
`none` models the `ValueError` the source catches. -/
def parseHM (s : String) : Option Nat :=
  let cs := s.data
  let hd := cs.takeWhile Char.isDigit
  match cs.drop hd.length with
  | ':' :: ms =>
    let md := ms.takeWhile Char.isDigit
    if hd.length == 0 || 2 < hd.length || md.length == 0 || 2 < md.length
        || md.length != ms.length then none
    else
      let h := digitsToNat hd
      let m := digitsToNat ms
      if h ≤ 23 && m ≤ 59 then some (h * 60 + m) else none
  | _ => none

/-- `current_time.strftime('%H:%M')` where `current_time` is
`datetime(1900,1,1) + t` minutes: `datetime` day arithmetic wraps, so the
rendered hour is the total modulo 24 hours. -/
def strftimeHM (t : Nat) : String := pad2 (t / 60 % 24) ++ ":" ++ pad2 (t % 60)

/-- The place extraction of `create_timeline`: the primary pattern, and
iff it produced nothing, the fallback pattern with the `"#"` sentinel
link. -/
def extract_places (recs : String) : List (String × String × String) :=
  let places := (pyFindall primaryPat recs).map
    (fun m => (capStr m.2 1, capStr m.2 2, capStr m.2 3))
  if places.isEmpty then
    (pyFindall fallbackPat recs).map (fun m => (capStr m.2 1, capStr m.2 2, "#"))
  else places

/-- One timeline table row, exactly as formatted by the source. -/
def mkTimelineRow (t : Nat) (p : String × String × String) : String :=
  "| " ++ strftimeHM t ++ " | " ++ pyStrip p.2.1 ++ " | " ++ pyStrip p.1
    ++ " | [🔗](" ++ pyStrip p.2.2 ++ ") |"

/-- The accumulator loop of `create_timeline`: emit a row at the current
time, then advance by the estimated duration of the (stripped) activity. -/
def timelineRows : List (String × String × String) → Nat → List String
  | [], _ => []
  | p :: ps, t => mkTimelineRow t p :: timelineRows ps (t + estimateDuration (pyStrip p.2.1))

/-- The two header rows of the timeline table. -/
def timelineHeader : List String :=
  ["| 시간 | 활동 | 장소 | 링크 |", "|------|------|------|------|"]

/-- `create_timeline(recommendations, start_time)`.  The only statement in
the `try` block that can raise is `strptime`; the `except` branch returns
the fixed error string. -/
def create_timeline (recs start : String) : String :=
  match parseHM start with
  | none => "시간표를 생성할 수 없습니다."
  | some t0 => joinLines (timelineHeader ++ timelineRows (extract_places recs) t0)

/-! ### `search_place` and `update_place_links` -/

/-- UTF-8 bytes of one character. -/
def utf8Bytes (c : Char) : List Nat :=
  let n := c.toNat
  if n < 0x80 then [n]
  else if n < 0x800 then [0xC0 + n / 0x40, 0x80 + n % 0x40]
  else if n < 0x10000 then
    [0xE0 + n / 0x1000, 0x80 + n / 0x40 % 0x40, 0x80 + n % 0x40]
  else
    [0xF0 + n / 0x40000, 0x80 + n / 0x1000 % 0x40, 0x80 + n / 0x40 % 0x40,
     0x80 + n % 0x40]

/-- Uppercase hex digit. -/
def hexDigit (n : Nat) : Char :=
  if n < 10 then Char.ofNat ('0'.toNat + n) else Char.ofNat ('A'.toNat + n - 10)

/-- Characters `urllib.parse.quote` leaves unescaped with the default
`safe='/'`: ASCII alphanumerics, `_.-~`, and `/`. -/
def quoteSafe (c : Char) : Bool :=
  c.isAlpha || c.isDigit || c == '_' || c == '.' || c == '-' || c == '~' || c == '/'

/-- `urllib.parse.quote(s)`: percent-encode the UTF-8 bytes of every
unsafe character. -/
def pyQuote (s : String) : String :=
  String.mk (s.data.flatMap fun c =>
    if quoteSafe c then [c]
    else (utf8Bytes c).flatMap fun b => ['%', hexDigit (b / 16), hexDigit (b % 16)])

/-- The name cleanup of `search_place`:
`re.sub(r'\([^)]*\)\**', '', query).strip()`. -/
def clean_query (q : String) : String := pyStrip (pySub parenPat "" q)

/-- `search_place(query)`: the `try` body (regex substitution, `strip`,
`quote`, f-string) cannot raise, so the function always returns a URL;
the `except` branch returning `None` is why the result type is `Option`. -/
def search_place (q : String) : Option String :=
  some ("https://map.naver.com/p/search/" ++ pyQuote (clean_query q))

/-- The course blocks found by
`re.findall(r'(### \*\*\[코스 \d+\].*?)(?=### \*\*\[코스 \d+\]|$)', recs, re.DOTALL)`. -/
def courseBlocks (recs : String) : List String :=
  (pyFindall coursePat recs).map fun m => capStr m.2 1

/-- The per-block body of the `update_place_links` loop. -/
def processLinkBlock (course : String) : String :=
  match pySearch namePat course with
  | some (_, caps) =>
    let placeName := pyStrip (capStr caps 1)
    match search_place placeName with
    | some url => pySub linkLinePat ("🔗 네이버 링크: " ++ url ++ "\n") course
    | none => course
  | none => course

/-- `update_place_links(recommendations)`.  No statement in the `try`
block raises, so the `except`-branch (returning the input unchanged) is
dead code. -/
def update_place_links (recs : String) : String :=
  joinStr ((courseBlocks recs).map processLinkBlock)

/-! ### `get_place_info` and `update_place_ratings` -/

/-- `get_place_info(url)` with the network fetch and HTML scrape
abstracted into the oracle `fetch` (which returns `none` on any non-2xx
response, parse failure, or missing elements — all such paths in the
source return `None`). -/
def get_place_info (fetch : String → Option String) (url : String) : Option String :=
  if "https://place.naver.com/".data.isPrefixOf url.data then fetch url else none

/-- The per-block body of the `update_place_ratings` loop. -/
def processRatingBlock (fetch : String → Option String) (course : String) : String :=
  match pySearch urlPat course with
  | some (_, caps) =>
    let url := pyStrip (capStr caps 1)
    match get_place_info fetch url with
    | some info => pySub ratingLinePat ("⭐ 별점: " ++ info) course
    | none => course
  | none => course

/-- `update_place_ratings(recommendations)`: the updated text, paired
with the number of `time.sleep(1)` calls the loop performs (one per block,
after processing it, regardless of outcome). -/
def update_place_ratings (fetch : String → Option String) (recs : String) :
    String × Nat :=
  let blocks := courseBlocks recs
  (joinStr (blocks.map (processRatingBlock fetch)), blocks.length)

/-! ### The prompt selection (feedback reconciliation) -/

/-- The feedback trigger words of the prompt-selection condition. -/
def feedbackKeywords : List String := ["바꿔", "교체", "다른", "비싸", "너무", "별로"]

/-- The condition choosing the revision prompt:
`st.session_state.last_recommendations and any(keyword in prompt.lower() ...)`.
Python truthiness makes `None` *and the empty string* both falsy, hence
the explicit emptiness test on `some`. -/
def is_revision (prev : Option String) (prompt : String) : Bool :=
  (match prev with
   | none => false
   | some s => !(s == "")) &&
  feedbackKeywords.any fun kw => isSubstr kw (pyLower prompt)

/-! ### Derived definitions used by the verification -/

/-- The keyword → minutes mapping of the specification (`DEFAULT_DURATIONS`
without the `"default"` sentinel entry), in the order the spec lists it. -/
def specKeywordDurations : List (String × Nat) :=
  [("식사", 90), ("디너", 90), ("런치", 60), ("브런치", 60), ("카페", 60),
   ("술집", 90), ("바", 90), ("산책", 45), ("전시", 90), ("영화", 120),
   ("공연", 120), ("쇼핑", 90)]

/-- The specification's description of the duration lookup: the minutes of
the first keyword occurring (case-insensitively) as a substring of the
description; `60` when no keyword occurs. -/
def specFirstKeywordDuration (a : String) : Nat :=
  match specKeywordDurations.find? (fun kv => isSubstr kv.1 (pyLower a)) with
  | some kv => kv.2
  | none => 60

/-- Total estimated duration of a list of stops. -/
def sumDur (ps : List (String × String × String)) : Nat :=
  (ps.map fun p => estimateDuration (pyStrip p.2.1)).sum

/-- Length of the digit run following the course-header literal. -/
def digitRun (cs : List Char) : Nat :=
  ((cs.drop hdrLit.length).takeWhile Char.isDigit).length

/-- Whether a full course-header marker `### **[코스 <digits>]` starts at
the head of `cs`. -/
def headerAtB (cs : List Char) : Bool :=
  hdrLit.isPrefixOf cs && decide (1 ≤ digitRun cs)
    && [']'].isPrefixOf ((cs.drop hdrLit.length).drop (digitRun cs))

/-- Position just past the course-header marker at the head of `cs`. -/
def hdrEnd (cs : List Char) : Nat := hdrLit.length + digitRun cs + 1

/-- Whether `$` (no `re.MULTILINE`) matches at the head of `cs`. -/
def eosB (cs : List Char) : Bool := cs == [] || cs == ['\n']

/-- Whether the lookahead `(?=### \*\*\[코스 \d+\]|$)` succeeds at the
head of `cs`. -/
def lookOKB (cs : List Char) : Bool := headerAtB cs || eosB cs

/-- The least position in `cs` at which the lookahead succeeds (the end
of the text always qualifies). -/
def firstLookPos : List Char → Nat
  | [] => 0
  | c :: t => if lookOKB (c :: t) then 0 else firstLookPos t + 1

/-- Where the course block starting at the head of `cs` ends: the end of
the header marker plus the non-greedy `.*?` extension up to the first
position where the lookahead succeeds. -/
def blockEnd (cs : List Char) : Nat :=
  hdrEnd cs + firstLookPos (cs.drop (hdrEnd cs))

/-- Whether `cs` contains a course-header marker anywhere. -/
def hasHdr : List Char → Bool
  | [] => false
  | c :: t => headerAtB (c :: t) || hasHdr t

/-- Whether an itinerary text contains a course-header marker. -/
def containsCourseHeader (s : String) : Bool := hasHdr s.data

/-- Position of the first course-header marker (length of the text when
there is none). -/
def firstHdrPos : List Char → Nat
  | [] => 0
  | c :: t => if headerAtB (c :: t) then 0 else firstHdrPos t + 1

/-- Remove a single trailing newline when present (the effect of the `$`
alternative of the block pattern's lookahead on the final block). -/
def stripNl (cs : List Char) : List Char :=
  if cs.getLast? == some '\n' then cs.dropLast else cs

/-- `true` when the optional value is absent or satisfies the predicate. -/
def optAll (p : α → Bool) : Option α → Bool
  | none => true
  | some a => p a

/-! ### Concrete sample inputs used by witnesses and counterexamples -/

/-- A model response with no course-header marker at all. -/
def noHeaderText : String := "오늘은 추천할 코스를 찾지 못했습니다. 다시 시도해 주세요."

/-- Two well-formed course blocks; with a 23:00 start, the second stop's
accumulated time is 24:30. -/
def lateSampleText : String :=
  "### **[코스 1] 식당\n🎯 내용: 디너\n🔗 네이버 링크: https://a.b\n### **[코스 2] 공원\n🎯 내용: 산책\n🔗 네이버 링크: https://c.d"

/-- What `create_timeline lateSampleText "23:00"` renders. -/
def lateSampleOut : String :=
  "| 시간 | 활동 | 장소 | 링크 |\n|------|------|------|------|\n| 23:00 | 디너 | 식당 | [🔗](https://a.b) |\n| 00:30 | 산책 | 공원 | [🔗](https://c.d) |"

/-- Three course blocks whose activities have estimated durations 90, 60
and 45 minutes. -/
def threeStopText : String :=
  "### **[코스 1] 식당\n🎯 내용: 디너\n🔗 네이버 링크: https://a.b\n### **[코스 2] 카페집\n🎯 내용: 런치\n🔗 네이버 링크: https://c.d\n### **[코스 3] 공원\n🎯 내용: 산책\n🔗 네이버 링크: https://e.f"

/-- What `create_timeline threeStopText "17:00"` renders. -/
def threeStopOut : String :=
  "| 시간 | 활동 | 장소 | 링크 |\n|------|------|------|------|\n| 17:00 | 디너 | 식당 | [🔗](https://a.b) |\n| 18:30 | 런치 | 카페집 | [🔗](https://c.d) |\n| 19:30 | 산책 | 공원 | [🔗](https://e.f) |"

/-- One block whose link is on the listing site, one whose link is not. -/
def ratingSampleText : String :=
  "### **[코스 1] 식당\n⭐ 별점: 4.5\n🔗 네이버 링크: https://place.naver.com/r/1\n### **[코스 2] 공원\n⭐ 별점: 4.0\n🔗 네이버 링크: https://example.com/x"

/-- The first block of `ratingSampleText` (its link matches the listing
prefix, so the rating fetch is attempted on it). -/
def ratingSampleBlock : String :=
  "### **[코스 1] 식당\n⭐ 별점: 4.5\n🔗 네이버 링크: https://place.naver.com/r/1\n"

/-- A block-less response for the fallback tier: header, name and
activity but no link line. -/
def fallbackOnlyText : String := "### **[코스 1] 식당\n🎯 내용: 디너"

/-- A response matching the primary pattern. -/
def primarySampleText : String := "### **[코스 1] 식당\n🎯 내용: 디너\n🔗 네이버 링크: https://a.b"

/-! ### Generic helper lemmas -/

theorem durationLoop_eq_find (l : List (String × Nat)) (s : String) :
    durationLoop l s = (((l.find? fun kv => isSubstr kv.1 s).map Prod.snd).getD 0) := by
  induction l with
  | nil => rfl
  | cons kv rest ih =>
    by_cases h : isSubstr kv.1 s = true
    · simp [durationLoop, List.find?_cons_of_pos, h]
    · simp only [Bool.not_eq_true] at h
      simp [durationLoop, List.find?_cons_of_neg, h, ih]

/-! ### Claim 3: `extract_date_time` on `"내일 저녁 7시"`

The claim says this input yields tomorrow's date and 19:00.  The code
recognises only the literal `"오전"` / `"오후"` markers; `"저녁"`
(evening) is not among them, so the bare hour 7 is kept: the result is
tomorrow's date and 07:00. -/

/-- C3 (counterexample): on `"내일 저녁 7시"` the extractor returns
`07:00`, not the `19:00` the claim states (the date half — tomorrow — is
as claimed). -/
theorem claim3_counterexample :
    extract_date_time 0 "내일 저녁 7시" = (DateRes.fromToday 1, "07:00")
    ∧ (DateRes.fromToday 1, ("07:00" : String)) ≠ (DateRes.fromToday 1, "19:00") :=
  ⟨rfl, by decide⟩

/-- C3 (amended): for every current weekday, `extract_date_time` on
`"내일 저녁 7시"` returns tomorrow's date and the clock time 07:00 — the
"저녁" (evening) marker is not recognised; only a literal "오후" phrase
adds 12 to the hour. -/
theorem claim3_amended :
    ∀ todayW : Nat, extract_date_time todayW "내일 저녁 7시" = (DateRes.fromToday 1, "07:00") :=
  fun _ => rfl

/-! ### Claim 7: `search_place` -/

/-- C7: `search_place` never fails (always `some`): it strips every
parenthetical segment with its trailing `*` emphasis markers, trims
whitespace, percent-encodes the remainder and embeds it in the fixed
map-search template; on the claim's input the encoded query is exactly
`"스타벅스 강남점"`. -/
theorem claim7_link_resolver :
    (∀ q : String,
        search_place q = some ("https://map.naver.com/p/search/" ++ pyQuote (clean_query q)))
    ∧ clean_query "스타벅스 강남점 (디저트 맛집)**" = "스타벅스 강남점"
    ∧ search_place "스타벅스 강남점 (디저트 맛집)**"
        = some ("https://map.naver.com/p/search/" ++ pyQuote "스타벅스 강남점")
    ∧ pyQuote "스타벅스 강남점" = "%EC%8A%A4%ED%83%80%EB%B2%85%EC%8A%A4%20%EA%B0%95%EB%82%A8%EC%A0%90" :=
  ⟨fun _ => rfl, rfl, rfl, rfl⟩

/-! ### Claim 5: the schedule accumulator -/

/-- C5: each entry is emitted at the current accumulator value and the
accumulator then advances by the stop's estimated duration; for three
stops of durations 90, 60 and 45 minutes starting at 17:00 the emitted
times are exactly 17:00, 18:30 and 19:30. -/
theorem claim5_schedule :
    (∀ (s1 s2 s3 : String × String × String) (t0 : Nat),
        estimateDuration (pyStrip s1.2.1) = 90 →
        estimateDuration (pyStrip s2.2.1) = 60 →
        estimateDuration (pyStrip s3.2.1) = 45 →
        timelineRows [s1, s2, s3] t0 =
          [mkTimelineRow t0 s1, mkTimelineRow (t0 + 90) s2, mkTimelineRow (t0 + 150) s3])
    ∧ strftimeHM 1020 = "17:00" ∧ strftimeHM 1110 = "18:30" ∧ strftimeHM 1170 = "19:30"
    ∧ create_timeline threeStopText "17:00" = threeStopOut := by
  refine ⟨?_, rfl, rfl, rfl, rfl⟩
  intro s1 s2 s3 t0 h1 h2 _h3
  simp only [timelineRows, h1, h2]

/-- C5 witness: the accumulator property at three concrete stops whose
activities (`디너`, `런치`, `산책`) have durations 90, 60 and 45. -/
theorem claim5_witness :
    timelineRows [("식당", "디너", "https://a.b"), ("카페집", "런치", "https://c.d"),
        ("공원", "산책", "https://e.f")] 1020 =
      [mkTimelineRow 1020 ("식당", "디너", "https://a.b"),
       mkTimelineRow (1020 + 90) ("카페집", "런치", "https://c.d"),
       mkTimelineRow (1020 + 150) ("공원", "산책", "https://e.f")] :=
  claim5_schedule.1 _ _ _ 1020 rfl rfl rfl

/-! ### Claim 2: times past 24:00 wrap

The claim says accumulated times past 24:00 render as elapsed values
such as `25:30`.  The source stores the clock in a `datetime` and
formats with `%H:%M`, which wraps modulo 24 hours: an accumulated 24:30
renders as `00:30`. -/

/-- C2 (counterexample): starting at 23:00 with a 90-minute first stop,
the second entry (accumulated 24:30) renders as `00:30`; no elapsed
`24:30` appears anywhere in the output. -/
theorem claim2_counterexample :
    create_timeline lateSampleText "23:00" = lateSampleOut
    ∧ isSubstr "| 00:30 |" lateSampleOut = true
    ∧ isSubstr "24:30" lateSampleOut = false :=
  ⟨rfl, rfl, rfl⟩

/-- C2 (amended): the `n`-th timeline entry is emitted at the start time
plus the durations of the preceding stops, and the rendered clock text is
that total *modulo 24 hours* (`pad2 (t / 60 % 24)`), i.e. times past
24:00 wrap around to small hour values instead of rendering as elapsed
values. -/
theorem claim2_amended :
    (∀ (ps : List (String × String × String)) (t0 n : Nat) (p : String × String × String),
        ps[n]? = some p →
        (timelineRows ps t0)[n]? = some (mkTimelineRow (t0 + sumDur (ps.take n)) p))
    ∧ (∀ m : Nat, strftimeHM m = pad2 (m / 60 % 24) ++ ":" ++ pad2 (m % 60)) := by
  refine ⟨?_, fun _ => rfl⟩
  intro ps
  induction ps with
  | nil => intro t0 n p hp; simp at hp
  | cons q ps ih =>
    intro t0 n p hp
    cases n with
    | zero =>
      simp only [List.getElem?_cons_zero, Option.some.injEq] at hp
      subst hp
      simp [timelineRows, sumDur]
    | succ n =>
      have hp' : ps[n]? = some p := by simpa using hp
      have hih := ih (t0 + estimateDuration (pyStrip q.2.1)) n p hp'
      simp only [timelineRows, List.getElem?_cons_succ, hih, List.take_succ_cons,
        sumDur, List.map_cons, List.sum_cons]
      rw [Nat.add_assoc]

/-- C2 witness: at two concrete stops starting 23:00 (= minute 1380), the
second entry is the row for minute 1470 = 24:30 elapsed. -/
theorem claim2_amended_witness :
    (timelineRows [("식당", "디너", "#"), ("공원", "산책", "#")] 1380)[1]?
      = some (mkTimelineRow
          (1380 + sumDur ([("식당", "디너", "#"), ("공원", "산책", "#")].take 1))
          ("공원", "산책", "#")) :=
  claim2_amended.1 _ 1380 1 _ rfl

/-! ### Claim 6: the duration lookup -/

/-- C6: for every description, the estimated duration is the minutes of
the first keyword of the ordered mapping occurring (case-insensitively)
as a substring, and 60 when none occurs; in particular 90 for
`"이탈리안 디너 코스"` and 60 for `"알 수 없는 활동"`. -/
theorem claim6_duration :
    (∀ a : String, estimateDuration a = specFirstKeywordDuration a)
    ∧ estimateDuration "이탈리안 디너 코스" = 90
    ∧ estimateDuration "알 수 없는 활동" = 60 := by
  refine ⟨?_, rfl, rfl⟩
  intro a
  have hsplit : DEFAULT_DURATIONS = specKeywordDurations ++ [("default", 60)] := rfl
  unfold estimateDuration specFirstKeywordDuration
  rw [durationLoop_eq_find, hsplit, List.find?_append]
  cases hf : specKeywordDurations.find? (fun kv => isSubstr kv.1 (pyLower a)) with
  | none =>
    by_cases hd : isSubstr "default" (pyLower a) = true
    · simp [hf, List.find?, hd]
    · simp only [Bool.not_eq_true] at hd
      simp [hf, List.find?, hd]
  | some kv =>
    have hne : kv.2 ≠ 0 := by
      have hall : ∀ kv ∈ specKeywordDurations, kv.2 ≠ 0 := by decide
      exact hall kv (List.mem_of_find?_eq_some hf)
    simp [hf, hne]

/-! ### Claim 8: the revision flag

The claim states the flag is true iff a previous itinerary *exists* and
a trigger word occurs.  The source tests Python truthiness of
`last_recommendations`, so a present-but-empty previous itinerary
(producible by a turn whose model output had no course headers) counts
as absent, contradicting the claim. -/

/-- C8 (counterexample): with a present-but-empty previous itinerary and
a trigger word present, the flag is `false` although the claim requires
`true`. -/
theorem claim8_counterexample :
    is_revision (some "") "다른 카페로 바꿔주세요" = false
    ∧ (some "" : Option String).isSome = true
    ∧ ∃ kw ∈ feedbackKeywords, isSubstr kw (pyLower "다른 카페로 바꿔주세요") = true := by
  refine ⟨rfl, rfl, "다른", ?_, rfl⟩
  simp [feedbackKeywords]

/-- C8 (amended): the flag is true iff the previous itinerary is present
*and non-empty* and the text contains at least one trigger word; the
claim's two concrete examples hold. -/
theorem claim8_amended :
    (∀ (prev : Option String) (prompt : String),
        is_revision prev prompt = true ↔
          ((∃ s, prev = some s ∧ s ≠ "") ∧
            ∃ kw ∈ feedbackKeywords, isSubstr kw (pyLower prompt) = true))
    ∧ is_revision (some "이전 추천 코스") "다른 카페로 바꿔주세요" = true
    ∧ is_revision none "새로운 데이트 코스 추천해줘" = false := by
  refine ⟨?_, rfl, rfl⟩
  intro prev prompt
  cases prev with
  | none => simp [is_revision]
  | some s => simp [is_revision, List.any_eq_true]

/-! ### Claim 4: the two-tier parser -/

/-- C4: the primary pattern is tried first; iff it yields zero matches
the fallback pattern is used, and then every stop's link is the sentinel
`"#"`; if neither pattern matches anywhere the result is the empty list
of stops. -/
theorem claim4_parser_tiers (t : String) :
    ((pyFindall primaryPat t).isEmpty = false →
        extract_places t =
          (pyFindall primaryPat t).map fun m => (capStr m.2 1, capStr m.2 2, capStr m.2 3))
    ∧ ((pyFindall primaryPat t).isEmpty = true →
        extract_places t =
          (pyFindall fallbackPat t).map fun m => (capStr m.2 1, capStr m.2 2, "#"))
    ∧ (∀ p, (pyFindall primaryPat t).isEmpty = true → p ∈ extract_places t → p.2.2 = "#")
    ∧ ((pyFindall primaryPat t).isEmpty = true → (pyFindall fallbackPat t).isEmpty = true →
        extract_places t = [])
    ∧ ((pyFindall primaryPat t).isEmpty = true ↔ pyFindall primaryPat t = []) := by
  cases hp : pyFindall primaryPat t with
  | nil =>
    refine ⟨?_, ?_, ?_, ?_, by simp⟩
    · intro h; simp at h
    · intro _; simp [extract_places, hp]
    · intro p _ hpm
      simp only [extract_places, hp, List.map_nil, List.isEmpty_nil, if_pos] at hpm
      obtain ⟨m, _, rfl⟩ := List.mem_map.mp hpm
      rfl
    · intro _ hf
      rw [List.isEmpty_iff] at hf
      simp [extract_places, hp, hf]
  | cons x xs =>
    refine ⟨?_, ?_, ?_, ?_, by simp [hp]⟩
    · intro _; simp [extract_places, hp]
    · intro h; simp [hp] at h
    · intro p h; simp [hp] at h
    · intro h; simp [hp] at h

/-- C4 witness: the two tiers at concrete inputs — a response with link
lines parses through the primary pattern; one without them falls back
and receives the `"#"` sentinel. -/
theorem claim4_witness :
    extract_places primarySampleText = [("식당", "디너", "https://a.b")]
    ∧ extract_places fallbackOnlyText = [("식당", "디너", "#")] := by
  constructor
  · exact ((claim4_parser_tiers primarySampleText).1 rfl).trans rfl
  · exact ((claim4_parser_tiers fallbackOnlyText).2.1 rfl).trans rfl

/-! ### Claim 9: the rating enricher's frame effect -/

/-- C9: `update_place_ratings` reassembles the found blocks in order,
performing exactly one throttling sleep per block regardless of outcome
(the returned counter), and a block whose link does not match the
listing-site prefix — or whose rating fetch is absent or fails — passes
through byte-identically. -/
theorem claim9_rating_frame (fetch : String → Option String) (recs : String) :
    update_place_ratings fetch recs
      = (joinStr ((courseBlocks recs).map (processRatingBlock fetch)),
         (courseBlocks recs).length)
    ∧ ∀ c : String,
        optAll (fun m => get_place_info fetch (pyStrip (capStr m.2 1)) == none)
            (pySearch urlPat c) = true →
        processRatingBlock fetch c = c := by
  refine ⟨rfl, ?_⟩
  intro c h
  cases e : pySearch urlPat c with
  | none => simp [processRatingBlock, e]
  | some m =>
    rw [e] at h
    simp only [optAll] at h
    have hnone : get_place_info fetch (pyStrip (capStr m.2 1)) = none := by
      simpa using h
    simp [processRatingBlock, e, hnone]

/-- C9 witness: with the fetch oracle always failing, the block whose
link is on the listing site passes through unchanged, and the whole text
(two blocks) is reassembled identically with two sleeps. -/
theorem claim9_witness :
    processRatingBlock (fun _ => none) ratingSampleBlock = ratingSampleBlock
    ∧ update_place_ratings (fun _ => none) ratingSampleText = (ratingSampleText, 2) := by
  constructor
  · exact (claim9_rating_frame (fun _ => none) ratingSampleText).2 ratingSampleBlock rfl
  · rfl

/-! ### Characterising the matcher on the course-block pattern

These lemmas establish what `re.findall` with the block pattern
`(### \*\*\[코스 \d+\].*?)(?=### \*\*\[코스 \d+\]|$)` returns on an
arbitrary text: each match starts at a course-header marker and extends
to the next marker, or to the end of the text (`$` also matching just
before a final newline). -/

theorem mmatch_lit (s cs : List Char) (caps : Caps) (k) :
    mmatch (.lit s) cs caps k = if s.isPrefixOf cs then k (cs.drop s.length) caps else none := rfl

theorem mmatch_eps (cs : List Char) (caps : Caps) (k) :
    mmatch (.lit []) cs caps k = k cs caps := by
  cases cs <;> rfl

theorem mmatch_rep (p : Char → Bool) (lo : Nat) (hi : Option Nat) (g : Bool) (cs caps k) :
    mmatch (.rep p lo hi g) cs caps k
      = firstSome (countsFor (cs.takeWhile p).length lo hi g) fun n => k (cs.drop n) caps := rfl

theorem mmatch_seq (a b : RE) (cs caps k) :
    mmatch (.seq a b) cs caps k = mmatch a cs caps fun cs1 c1 => mmatch b cs1 c1 k := rfl

theorem mmatch_alt (a b : RE) (cs caps k) :
    mmatch (.alt a b) cs caps k
      = match mmatch a cs caps k with
        | some r => some r
        | none => mmatch b cs caps k := rfl

theorem mmatch_grp (i : Nat) (a : RE) (cs caps k) :
    mmatch (.grp i a) cs caps k
      = mmatch a cs caps fun cs1 c1 => k cs1 ((i, cs.take (cs.length - cs1.length)) :: c1) := rfl

theorem mmatch_look (a : RE) (cs caps k) :
    mmatch (.look a) cs caps k
      = match mmatch a cs caps (fun cs1 c1 => some (cs1, c1)) with
        | some _ => k cs caps
        | none => none := rfl

theorem mmatch_eos (cs caps k) :
    mmatch .eos cs caps k = if cs == [] || cs == ['\n'] then k cs caps else none := rfl

theorem firstSome_eq_none {l : List Nat} {f : Nat → Option (List Char × Caps)}
    (h : ∀ n ∈ l, f n = none) : firstSome l f = none := by
  induction l with
  | nil => rfl
  | cons a l ih =>
    rw [firstSome, h a (List.mem_cons_self a l)]
    exact ih fun n hn => h n (List.mem_cons_of_mem a hn)

theorem firstSome_cons_of_tail_none {a : Nat} {l : List Nat} {f : Nat → Option (List Char × Caps)}
    (h : ∀ n ∈ l, f n = none) : firstSome (a :: l) f = f a := by
  rw [firstSome]
  cases hfa : f a with
  | some r => rfl
  | none => exact firstSome_eq_none h

theorem firstSome_ifP (l : List Nat) (P : Nat → Bool) (g : Nat → List Char × Caps) :
    firstSome l (fun n => if P n then some (g n) else none) = (l.find? P).map g := by
  induction l with
  | nil => rfl
  | cons a l ih =>
    by_cases h : P a = true
    · simp [firstSome, h, List.find?_cons_of_pos]
    · simp only [Bool.not_eq_true] at h
      simp [firstSome, h, List.find?_cons_of_neg, ih]

theorem countsFor_lazy (run : Nat) : countsFor run 0 none false = List.range (run + 1) := by
  unfold countsFor
  simp only [Option.getD_none, Nat.min_self]
  rw [if_neg (by omega), if_neg (by simp)]
  simp

theorem countsFor_greedy_succ (m : Nat) :
    countsFor (m + 1) 1 none true = (m + 1) :: ((List.range m).map (1 + ·)).reverse := by
  unfold countsFor
  simp only [Option.getD_none, Nat.min_self]
  rw [if_neg (by omega), if_pos trivial]
  rw [show m + 1 - 1 + 1 = m + 1 from by omega, List.range_succ, List.map_append,
    List.reverse_append]
  simp [Nat.add_comm]

theorem mem_countsFor_greedy {m n : Nat} (h : n ∈ ((List.range m).map (1 + ·)).reverse) :
    1 ≤ n ∧ n ≤ m := by
  simp only [List.mem_reverse, List.mem_map, List.mem_range] at h
  obtain ⟨i, hi, rfl⟩ := h
  omega

theorem drop_lt_takeWhile_length {p : Char → Bool} :
    ∀ (l : List Char) (n : Nat), n < (l.takeWhile p).length →
      ∃ c t, l.drop n = c :: t ∧ p c = true := by
  intro l
  induction l with
  | nil => intro n h; simp at h
  | cons a l ih =>
    intro n h
    by_cases hpa : p a = true
    · cases n with
      | zero => exact ⟨a, l, rfl, hpa⟩
      | succ n =>
        rw [List.takeWhile_cons, if_pos hpa] at h
        simp only [List.length_cons] at h
        exact ih n (by omega)
    · simp only [Bool.not_eq_true] at hpa
      rw [List.takeWhile_cons] at h
      simp [hpa] at h

theorem rbracket_isPrefixOf_digit_cons {c : Char} {t : List Char} (h : c.isDigit = true) :
    [']'].isPrefixOf (c :: t) = false := by
  have hne : (']' == c) = false := by
    cases hb : (']' == c) with
    | false => rfl
    | true =>
      have : ']' = c := eq_of_beq hb
      rw [← this] at h
      exact absurd h (by decide)
  simp [List.isPrefixOf, hne]

/-- Matching the header part `### \*\*\[코스 \d+\]` followed by an
arbitrary remainder `B`: the greedy `\d+` consumes the whole digit run
(shorter counts leave a digit in front of the required `]` and fail), so
the pattern gets past the header iff a full course-header marker starts
here, and then continues at `hdrEnd`. -/
theorem mmatch_hdrSeq (B : RE) (cs : List Char) (caps : Caps)
    (k : List Char → Caps → Option (List Char × Caps)) :
    mmatch (.seq (.lit hdrLit) (.seq reDigits1 (.seq (reStr "]") B))) cs caps k
      = if headerAtB cs = true then mmatch B (cs.drop (hdrEnd cs)) caps k else none := by
  rw [mmatch_seq, mmatch_lit]
  by_cases hpre : hdrLit.isPrefixOf cs = true
  · rw [if_pos hpre, mmatch_seq, show reDigits1 = RE.rep Char.isDigit 1 none true from rfl,
      mmatch_rep]
    have hr : ((cs.drop hdrLit.length).takeWhile Char.isDigit).length = digitRun cs := rfl
    rw [hr]
    cases hrr : digitRun cs with
    | zero =>
      rw [show countsFor 0 1 none true = [] from rfl]
      have hh : headerAtB cs = false := by
        simp [headerAtB, hrr]
      rw [hh]
      rfl
    | succ m =>
      rw [countsFor_greedy_succ]
      have htail : ∀ n ∈ ((List.range m).map (1 + ·)).reverse,
          mmatch (.seq (reStr "]") B) ((cs.drop hdrLit.length).drop n) caps k = none := by
        intro n hn
        obtain ⟨h1, h2⟩ := mem_countsFor_greedy hn
        obtain ⟨c, t, hdrop, hdig⟩ :=
          drop_lt_takeWhile_length (cs.drop hdrLit.length) n (by rw [hr, hrr]; omega)
        rw [mmatch_seq, show reStr "]" = RE.lit [']'] from rfl, mmatch_lit, hdrop,
          rbracket_isPrefixOf_digit_cons hdig]
        rfl
      rw [firstSome_cons_of_tail_none htail, mmatch_seq,
        show reStr "]" = RE.lit [']'] from rfl, mmatch_lit]
      by_cases hbr : [']'].isPrefixOf ((cs.drop hdrLit.length).drop (m + 1)) = true
      · rw [if_pos hbr]
        have hh : headerAtB cs = true := by
          unfold headerAtB
          rw [hpre, Bool.true_and, hrr, decide_eq_true (by omega : 1 ≤ m + 1), Bool.true_and]
          exact hbr
        rw [if_pos hh]
        have hdr : (((cs.drop hdrLit.length).drop (m + 1)).drop [']'].length)
            = cs.drop (hdrEnd cs) := by
          rw [List.drop_drop, List.drop_drop]
          unfold hdrEnd
          rw [hrr]
          congr 1
        rw [hdr]
      · rw [if_neg hbr]
        have hbf : [']'].isPrefixOf ((cs.drop hdrLit.length).drop (m + 1)) = false := by
          cases hx : [']'].isPrefixOf ((cs.drop hdrLit.length).drop (m + 1)) with
          | true => exact absurd hx hbr
          | false => rfl
        have hh : headerAtB cs = false := by
          unfold headerAtB
          rw [hrr, hbf, Bool.and_false]
        rw [hh]
        rfl
  · rw [if_neg hpre]
    have hpf : hdrLit.isPrefixOf cs = false := by
      cases hx : hdrLit.isPrefixOf cs with
      | true => exact absurd hx hpre
      | false => rfl
    have hh : headerAtB cs = false := by
      unfold headerAtB
      rw [hpf, Bool.false_and, Bool.false_and]
    rw [hh]
    rfl

theorem mmatch_headerRE (cs : List Char) (caps : Caps) (k) :
    mmatch headerRE cs caps k
      = if headerAtB cs = true then k (cs.drop (hdrEnd cs)) caps else none := by
  have he : headerRE
      = .seq (.lit hdrLit) (.seq reDigits1 (.seq (reStr "]") (.lit []))) := rfl
  rw [he, mmatch_hdrSeq]
  by_cases hh : headerAtB cs = true
  · rw [if_pos hh, if_pos hh, mmatch_eps]
  · rw [if_neg hh, if_neg hh]

theorem bool_eq_false_of_ne_true {b : Bool} (h : ¬ b = true) : b = false := by
  cases b with
  | true => exact absurd rfl h
  | false => rfl

theorem mmatch_lookHdr (cs : List Char) (caps : Caps) (k) :
    mmatch (.look (.alt headerRE .eos)) cs caps k
      = if lookOKB cs = true then k cs caps else none := by
  rw [mmatch_look, mmatch_alt, mmatch_headerRE]
  by_cases hh : headerAtB cs = true
  · rw [if_pos hh]
    have hl : lookOKB cs = true := by unfold lookOKB; rw [hh, Bool.true_or]
    rw [hl]
    rfl
  · rw [if_neg hh, mmatch_eos]
    have hf := bool_eq_false_of_ne_true hh
    by_cases he : (cs == [] || cs == ['\n']) = true
    · rw [if_pos he]
      have hl : lookOKB cs = true := by
        unfold lookOKB eosB
        rw [hf, Bool.false_or]
        exact he
      rw [hl]
      rfl
    · rw [if_neg he]
      have hl : lookOKB cs = false := by
        unfold lookOKB eosB
        rw [hf, Bool.false_or]
        exact bool_eq_false_of_ne_true he
      rw [hl]
      rfl

theorem firstLookPos_le (q : List Char) : firstLookPos q ≤ q.length := by
  induction q with
  | nil => exact Nat.le_refl 0
  | cons c t ih =>
    simp only [firstLookPos]
    by_cases h : lookOKB (c :: t) = true
    · rw [if_pos h]; exact Nat.zero_le _
    · rw [if_neg h]; simpa using Nat.succ_le_succ ih

theorem lookOK_at_firstLookPos (q : List Char) : lookOKB (q.drop (firstLookPos q)) = true := by
  induction q with
  | nil => rfl
  | cons c t ih =>
    simp only [firstLookPos]
    by_cases h : lookOKB (c :: t) = true
    · rw [if_pos h]; exact h
    · rw [if_neg h]; exact ih

theorem lookOK_before_firstLookPos (q : List Char) :
    ∀ m, m < firstLookPos q → lookOKB (q.drop m) = false := by
  induction q with
  | nil => intro m h; simp [firstLookPos] at h
  | cons c t ih =>
    intro m h
    simp only [firstLookPos] at h
    by_cases hl : lookOKB (c :: t) = true
    · rw [if_pos hl] at h; exact absurd h (Nat.not_lt_zero m)
    · rw [if_neg hl] at h
      cases m with
      | zero =>
        cases hx : lookOKB (c :: t) with
        | true => exact absurd hx hl
        | false => exact hx
      | succ m => exact ih m (by omega)

theorem find?_range_lookOK (q : List Char) :
    (List.range (q.length + 1)).find? (fun n => lookOKB (q.drop n))
      = some (firstLookPos q) := by
  induction q with
  | nil => rfl
  | cons c t ih =>
    rw [show (c :: t).length + 1 = (t.length + 1) + 1 from rfl, List.range_succ_eq_map,
      List.find?_cons]
    by_cases h : lookOKB (c :: t) = true
    · rw [show lookOKB (List.drop 0 (c :: t)) = true from h]
      simp [firstLookPos, h]
    · rw [show lookOKB (List.drop 0 (c :: t)) = false from bool_eq_false_of_ne_true h,
        List.find?_map]
      have hc : ((fun n => lookOKB (List.drop n (c :: t))) ∘ Nat.succ)
          = fun n => lookOKB (t.drop n) := rfl
      rw [hc, ih]
      simp [firstLookPos, h]

theorem takeWhile_all (l : List Char) : l.takeWhile (fun _ => true) = l := by
  induction l with
  | nil => rfl
  | cons a l ih => simp [List.takeWhile_cons, ih]

theorem singleton_isPrefixOf_cons {x : Char} {l : List Char} (h : [x].isPrefixOf l = true) :
    ∃ t, l = x :: t := by
  have hp : [x] <+: l := by rwa [← List.isPrefixOf_iff_prefix]
  obtain ⟨t, ht⟩ := hp
  exact ⟨t, by rw [← ht]; rfl⟩

theorem hdrEnd_le_length {cs : List Char} (h : headerAtB cs = true) :
    hdrEnd cs ≤ cs.length := by
  unfold headerAtB at h
  simp only [Bool.and_eq_true] at h
  obtain ⟨⟨_, _⟩, h3⟩ := h
  obtain ⟨t, ht⟩ := singleton_isPrefixOf_cons h3
  have hlen := congrArg List.length ht
  simp only [List.length_drop, List.length_cons] at hlen
  unfold hdrEnd
  omega

theorem drop_hdrEnd_pred {cs : List Char} (h : headerAtB cs = true) :
    cs.drop (hdrLit.length + digitRun cs) = ']' :: cs.drop (hdrEnd cs) := by
  unfold headerAtB at h
  simp only [Bool.and_eq_true] at h
  obtain ⟨⟨_, _⟩, h3⟩ := h
  obtain ⟨t, ht⟩ := singleton_isPrefixOf_cons h3
  rw [List.drop_drop] at ht
  rw [ht]
  congr 1
  have h2 : cs.drop (hdrLit.length + digitRun cs + 1) = t := by
    rw [← List.drop_drop, ht]; rfl
  unfold hdrEnd
  exact h2.symm

theorem blockEnd_le_length {cs : List Char} (h : headerAtB cs = true) :
    blockEnd cs ≤ cs.length := by
  have h1 := hdrEnd_le_length h
  have h2 := firstLookPos_le (cs.drop (hdrEnd cs))
  rw [List.length_drop] at h2
  unfold blockEnd
  omega

theorem one_le_blockEnd (cs : List Char) : 1 ≤ blockEnd cs := by
  unfold blockEnd hdrEnd
  omega

/-- What matching the whole block pattern at a position does: it succeeds
iff a course-header marker starts there, the match (and its single
capture group) being the text up to the first later position where the
lookahead (next marker, or `$`) succeeds. -/
theorem mmatch_coursePat (cs : List Char) :
    mmatch coursePat cs [] (fun rest caps => some (rest, caps))
      = if headerAtB cs = true
        then some (cs.drop (blockEnd cs), [(1, cs.take (blockEnd cs))])
        else none := by
  have hc : coursePat
      = .seq (.grp 1 (.seq (.lit hdrLit) (.seq reDigits1 (.seq (reStr "]")
          (.seq reAnyLazy (.lit []))))))
        (.look (.alt headerRE .eos)) := rfl
  rw [hc, mmatch_seq, mmatch_grp, mmatch_hdrSeq]
  by_cases hh : headerAtB cs = true
  case neg => rw [if_neg hh, if_neg hh]
  case pos =>
    rw [if_pos hh, if_pos hh]
    rw [mmatch_seq, show reAnyLazy = RE.rep (fun _ => true) 0 none false from rfl, mmatch_rep]
    rw [takeWhile_all, countsFor_lazy]
    simp only [mmatch_eps, mmatch_lookHdr]
    rw [firstSome_ifP _ (fun n => lookOKB ((cs.drop (hdrEnd cs)).drop n))
      (fun n => ((cs.drop (hdrEnd cs)).drop n,
        (1, cs.take (cs.length - ((cs.drop (hdrEnd cs)).drop n).length)) :: []))]
    rw [find?_range_lookOK]
    have hq : (cs.drop (hdrEnd cs)).drop (firstLookPos (cs.drop (hdrEnd cs)))
        = cs.drop (blockEnd cs) := by
      rw [List.drop_drop]
      unfold blockEnd
      rfl
    have hlen : cs.length
        - ((cs.drop (hdrEnd cs)).drop (firstLookPos (cs.drop (hdrEnd cs)))).length
        = blockEnd cs := by
      rw [hq, List.length_drop]
      have h1 := blockEnd_le_length hh
      omega
    simp only [Option.map_some']
    rw [hlen, hq]

theorem headerAt_ne_nil {cs : List Char} (h : headerAtB cs = true) : cs ≠ [] := by
  intro e
  subst e
  exact absurd h (by decide)

theorem searchAux_nil (r : RE) :
    searchAux r []
      = match mmatch r [] [] (fun rest caps => some (rest, caps)) with
        | some (rest, caps) => some ([], caps, rest)
        | none => none := rfl

theorem searchAux_cons (r : RE) (c : Char) (cs1 : List Char) :
    searchAux r (c :: cs1)
      = match mmatch r (c :: cs1) [] (fun rest caps => some (rest, caps)) with
        | some (rest, caps) =>
          some ((c :: cs1).take ((c :: cs1).length - rest.length), caps, rest)
        | none => searchAux r cs1 := rfl

/-- `re.search` with the block pattern at a text that starts with a
course-header marker: the match is the block running to `blockEnd`. -/
theorem searchAux_coursePat_at_header {cs : List Char} (h : headerAtB cs = true) :
    searchAux coursePat cs
      = some (cs.take (blockEnd cs), [(1, cs.take (blockEnd cs))], cs.drop (blockEnd cs)) := by
  cases cs with
  | nil => exact absurd h (by decide)
  | cons c t =>
    rw [searchAux_cons, mmatch_coursePat, if_pos h]
    have hble := blockEnd_le_length h
    show some ((c :: t).take ((c :: t).length - ((c :: t).drop (blockEnd (c :: t))).length),
        [(1, (c :: t).take (blockEnd (c :: t)))], (c :: t).drop (blockEnd (c :: t))) = _
    rw [List.length_drop,
      show (c :: t).length - ((c :: t).length - blockEnd (c :: t)) = blockEnd (c :: t) from by
        simp at hble ⊢
        omega]

/-- Positions before the first course-header marker are skipped by the
scan. -/
theorem searchAux_coursePat_skip (cs : List Char) :
    searchAux coursePat cs = searchAux coursePat (cs.drop (firstHdrPos cs)) := by
  induction cs with
  | nil => rfl
  | cons c t ih =>
    by_cases h : headerAtB (c :: t) = true
    · simp only [firstHdrPos, if_pos h]
      rfl
    · simp only [firstHdrPos, if_neg h]
      rw [searchAux_cons, mmatch_coursePat, if_neg h]
      exact ih

/-- With no course-header marker anywhere, the scan fails. -/
theorem searchAux_coursePat_none {cs : List Char} (h : hasHdr cs = false) :
    searchAux coursePat cs = none := by
  induction cs with
  | nil => rfl
  | cons c t ih =>
    unfold hasHdr at h
    rw [Bool.or_eq_false_iff] at h
    obtain ⟨h1, h2⟩ := h
    rw [searchAux_cons, mmatch_coursePat, h1, if_neg (by decide)]
    exact ih h2

theorem headerAt_of_hasHdr {cs : List Char} (h : hasHdr cs = true) :
    headerAtB (cs.drop (firstHdrPos cs)) = true := by
  induction cs with
  | nil => exact absurd h (by decide)
  | cons c t ih =>
    by_cases hx : headerAtB (c :: t) = true
    · simp only [firstHdrPos, if_pos hx]
      exact hx
    · unfold hasHdr at h
      rw [bool_eq_false_of_ne_true hx, Bool.false_or] at h
      simp only [firstHdrPos, if_neg hx]
      exact ih h

theorem findallAux_succ (r : RE) (fuel : Nat) (cs : List Char) :
    findallAux r (fuel + 1) cs
      = match searchAux r cs with
        | none => []
        | some (whole, caps, rest) =>
          if whole.isEmpty then
            match rest with
            | [] => [([], caps)]
            | _ :: rest1 => ([], caps) :: findallAux r fuel rest1
          else (whole, caps) :: findallAux r fuel rest := rfl

theorem joinL_nil : joinL [] = [] := rfl

theorem joinL_cons (a : List Char) (l : List (List Char)) : joinL (a :: l) = a ++ joinL l := rfl

theorem getLast?_of_drop_singleton {l : List Char} {n : Nat} {x : Char}
    (h : l.drop n = [x]) : l.getLast? = some x := by
  have hl : l = l.take n ++ [x] := by
    conv_lhs => rw [← List.take_append_drop n l]
    rw [h]
  rw [hl, List.getLast?_concat]

theorem stripNl_append {x y : List Char} (hy : y ≠ []) :
    x ++ stripNl y = stripNl (x ++ y) := by
  obtain ⟨a, ha⟩ : ∃ a, y.getLast? = some a :=
    Option.isSome_iff_exists.mp (List.getLast?_isSome.mpr hy)
  unfold stripNl
  rw [List.getLast?_append, ha, Option.or_some]
  by_cases hb : (some a == some '\n') = true
  · rw [if_pos hb, if_pos hb, List.dropLast_append,
      if_neg (fun hc => hy (List.isEmpty_iff.mp hc))]
  · rw [if_neg hb, if_neg hb]

/-- The invariant of the `findall` loop: starting at a course-header
marker, the concatenation of the found blocks is the remaining text, less
a single final newline when the text ends in one (the `$` of the
lookahead matches just before it, so the last block stops there). -/
theorem joinBlocks_fuel :
    ∀ (fuel : Nat) (cs : List Char), cs.length < fuel → headerAtB cs = true →
      joinL ((findallAux coursePat fuel cs).map fun m => (capGet m.2 1).getD [])
        = stripNl cs := by
  intro fuel
  induction fuel with
  | zero => intro cs h _; exact absurd h (Nat.not_lt_zero _)
  | succ fuel ih =>
    intro cs hlen hh
    have hne : cs ≠ [] := headerAt_ne_nil hh
    have hcpos : 0 < cs.length := List.length_pos.mpr hne
    have h1b := one_le_blockEnd cs
    have hble := blockEnd_le_length hh
    rw [findallAux_succ, searchAux_coursePat_at_header hh]
    have hwne : (cs.take (blockEnd cs)).isEmpty = false := by
      cases cs with
      | nil => exact absurd rfl hne
      | cons c t =>
        obtain ⟨m, hm⟩ : ∃ m, blockEnd (c :: t) = m + 1 :=
          ⟨blockEnd (c :: t) - 1, by omega⟩
        rw [hm, List.take_succ_cons]
        rfl
    show joinL ((if (cs.take (blockEnd cs)).isEmpty = true then
          (match cs.drop (blockEnd cs) with
           | [] => [([], [(1, cs.take (blockEnd cs))])]
           | _ :: rest1 => ([], [(1, cs.take (blockEnd cs))]) :: findallAux coursePat fuel rest1)
        else (cs.take (blockEnd cs), [(1, cs.take (blockEnd cs))]) ::
          findallAux coursePat fuel (cs.drop (blockEnd cs))).map
        fun m => (capGet m.2 1).getD []) = stripNl cs
    rw [if_neg (show ¬ ((cs.take (blockEnd cs)).isEmpty = true) from by
      rw [hwne]; exact Bool.false_ne_true)]
    rw [List.map_cons, joinL_cons,
      show ((capGet [(1, cs.take (blockEnd cs))] 1).getD [] : List Char)
        = cs.take (blockEnd cs) from rfl]
    have hlook : lookOKB (cs.drop (blockEnd cs)) = true := by
      have hx := lookOK_at_firstLookPos (cs.drop (hdrEnd cs))
      rwa [List.drop_drop] at hx
    by_cases hhr : headerAtB (cs.drop (blockEnd cs)) = true
    · have hrlen : (cs.drop (blockEnd cs)).length < fuel := by
        rw [List.length_drop]
        omega
      rw [ih (cs.drop (blockEnd cs)) hrlen hhr,
        stripNl_append (headerAt_ne_nil hhr), List.take_append_drop]
    · have heos : eosB (cs.drop (blockEnd cs)) = true := by
        unfold lookOKB at hlook
        rw [bool_eq_false_of_ne_true hhr, Bool.false_or] at hlook
        exact hlook
      have hcases : cs.drop (blockEnd cs) = [] ∨ cs.drop (blockEnd cs) = ['\n'] := by
        unfold eosB at heos
        rw [Bool.or_eq_true] at heos
        rcases heos with h | h
        · exact Or.inl (eq_of_beq h)
        · exact Or.inr (eq_of_beq h)
      have hfa : findallAux coursePat fuel (cs.drop (blockEnd cs)) = [] := by
        rcases hcases with h | h
        · rw [h]
          cases fuel with
          | zero => rfl
          | succ f => rw [findallAux_succ, searchAux_coursePat_none (by rfl)]
        · rw [h]
          cases fuel with
          | zero => rfl
          | succ f => rw [findallAux_succ, searchAux_coursePat_none (by decide)]
      rw [hfa, List.map_nil, joinL_nil, List.append_nil]
      rcases hcases with h | h
      · have hbe : cs.length ≤ blockEnd cs := by
          have hlen0 := congrArg List.length h
          rw [List.length_drop] at hlen0
          simp only [List.length_nil] at hlen0
          omega
        rw [List.take_of_length_le hbe]
        have hlast : cs.getLast? ≠ some '\n' := by
          by_cases hq : cs.drop (hdrEnd cs) = []
          · have hd := drop_hdrEnd_pred hh
            rw [hq] at hd
            rw [getLast?_of_drop_singleton
              (show cs.drop (hdrLit.length + digitRun cs) = [']'] from hd)]
            decide
          · have hrest : (cs.drop (hdrEnd cs)).drop (firstLookPos (cs.drop (hdrEnd cs))) = [] := by
              rw [List.drop_drop]
              exact h
            have hql : 0 < (cs.drop (hdrEnd cs)).length := List.length_pos.mpr hq
            have hn0 : firstLookPos (cs.drop (hdrEnd cs)) = (cs.drop (hdrEnd cs)).length := by
              have h1 := firstLookPos_le (cs.drop (hdrEnd cs))
              have h2 := congrArg List.length hrest
              rw [List.length_drop] at h2
              simp only [List.length_nil] at h2
              omega
            have hmin := lookOK_before_firstLookPos (cs.drop (hdrEnd cs))
              ((cs.drop (hdrEnd cs)).length - 1) (by omega)
            obtain ⟨x, hx⟩ : ∃ x,
                (cs.drop (hdrEnd cs)).drop ((cs.drop (hdrEnd cs)).length - 1) = [x] := by
              have hlen1 : ((cs.drop (hdrEnd cs)).drop
                  ((cs.drop (hdrEnd cs)).length - 1)).length = 1 := by
                rw [List.length_drop]
                omega
              cases hd : (cs.drop (hdrEnd cs)).drop ((cs.drop (hdrEnd cs)).length - 1) with
              | nil => rw [hd] at hlen1; simp at hlen1
              | cons a l =>
                rw [hd] at hlen1
                simp only [List.length_cons] at hlen1
                have hl0 : l = [] := by
                  rw [← List.length_eq_zero]
                  omega
                exact ⟨a, by rw [hl0]⟩
            have hxn : x ≠ '\n' := by
              intro e
              subst e
              rw [hx] at hmin
              exact absurd hmin (by decide)
            have hcl : cs.getLast? = some x := by
              conv_lhs => rw [← List.take_append_drop (hdrEnd cs) cs]
              rw [List.getLast?_append, getLast?_of_drop_singleton hx, Option.or_some]
            rw [hcl]
            intro e
            exact hxn (Option.some.inj e)
        unfold stripNl
        rw [if_neg (show ¬ ((cs.getLast? == some '\n') = true) from by
          rw [beq_eq_false_iff_ne.mpr hlast]
          exact Bool.false_ne_true)]
      · conv_rhs => rw [show stripNl cs = stripNl (cs.take (blockEnd cs) ++ ['\n']) from by
          conv_lhs => rw [← List.take_append_drop (blockEnd cs) cs, h]]
        unfold stripNl
        rw [List.getLast?_concat, if_pos (by decide), List.dropLast_concat]

/-- Concatenating all blocks found by the block pattern yields the text
from the first course-header marker on, less a single trailing newline. -/
theorem courseBlocks_data_join {cs : List Char} (h : hasHdr cs = true) :
    joinL ((findallAux coursePat (cs.length + 1) cs).map fun m => (capGet m.2 1).getD [])
      = stripNl (cs.drop (firstHdrPos cs)) := by
  have hpos : headerAtB (cs.drop (firstHdrPos cs)) = true := headerAt_of_hasHdr h
  rw [findallAux_succ, searchAux_coursePat_skip cs, ← findallAux_succ]
  exact joinBlocks_fuel (cs.length + 1) (cs.drop (firstHdrPos cs))
    (by rw [List.length_drop]; omega) hpos

theorem courseBlocks_of_no_hdr {s : String} (h : hasHdr s.data = false) :
    courseBlocks s = [] := by
  unfold courseBlocks pyFindall
  rw [findallAux_succ, searchAux_coursePat_none h]
  rfl

/-! ### Claim 1: behaviour on texts with no course header

The claim says the downstream stages return the input *unchanged* when
the model text has no course-header marker.  In fact
`''.join(re.findall(...))` over zero matches returns the *empty string*,
so the narrative text is dropped entirely; the end-to-end part (an
empty, header-only timeline, no exception) does hold. -/

/-- C1 (counterexample): on a header-less text the link updater returns
the empty string, not the input unchanged (and so does the rating
updater). -/
theorem claim1_counterexample :
    update_place_links noHeaderText = ""
    ∧ update_place_ratings (fun _ => none) noHeaderText = ("", 0)
    ∧ noHeaderText ≠ "" :=
  ⟨rfl, rfl, by decide⟩

/-- C1 (amended): for every itinerary text with zero course-header
markers, `update_place_links` and `update_place_ratings` return the
*empty string* (performing no sleeps), and the timeline rendered from the
resulting text is the header-only table; every stage is total, so no
exception propagates. -/
theorem claim1_amended (t : String) (fetch : String → Option String)
    (h : containsCourseHeader t = false) :
    update_place_links t = ""
    ∧ update_place_ratings fetch t = ("", 0)
    ∧ ∀ (s : String) (t0 : Nat), parseHM s = some t0 →
        create_timeline (update_place_ratings fetch (update_place_links t)).1 s
          = joinLines timelineHeader := by
  unfold containsCourseHeader at h
  have hb : courseBlocks t = [] := courseBlocks_of_no_hdr h
  have h1 : update_place_links t = "" := by
    unfold update_place_links
    rw [hb]
    rfl
  have h2 : update_place_ratings fetch t = ("", 0) := by
    unfold update_place_ratings
    rw [hb]
    rfl
  refine ⟨h1, h2, ?_⟩
  intro s t0 hs
  rw [h1]
  have h3 : update_place_ratings fetch "" = ("", 0) := by
    unfold update_place_ratings
    rw [show courseBlocks "" = [] from rfl]
    rfl
  rw [h3]
  show create_timeline "" s = joinLines timelineHeader
  unfold create_timeline
  rw [hs]
  show joinLines (timelineHeader ++ timelineRows (extract_places "") t0) = joinLines timelineHeader
  rw [show extract_places "" = [] from rfl]
  rfl

/-- C1 witness: the amended claim at a concrete header-less text, the
always-failing fetch oracle, and the default start time. -/
theorem claim1_amended_witness :
    update_place_links noHeaderText = ""
    ∧ update_place_ratings (fun _ => none) noHeaderText = ("", 0)
    ∧ create_timeline
        (update_place_ratings (fun _ => none) (update_place_links noHeaderText)).1 "17:00"
        = joinLines timelineHeader := by
  have H := claim1_amended noHeaderText (fun _ => none) (by decide)
  exact ⟨H.1, H.2.1, H.2.2 "17:00" 1020 rfl⟩

/-! ### Claim 10: the block functions keep only the course blocks -/

/-- C10: on a text containing at least one course-header marker, both
block-rewriting stages return exactly the concatenation of their
per-block outputs, in original order, and the extracted blocks
concatenate to the text from the first course-header marker to the end
(less a single trailing newline, which the `$` lookahead alternative
stops in front of) — in particular all text before the first marker is
dropped, and text survives only inside some course block. -/
theorem claim10_blocks (t : String) (fetch : String → Option String)
    (h : containsCourseHeader t = true) :
    update_place_links t = joinStr ((courseBlocks t).map processLinkBlock)
    ∧ (update_place_ratings fetch t).1
        = joinStr ((courseBlocks t).map (processRatingBlock fetch))
    ∧ joinL ((courseBlocks t).map String.data)
        = stripNl (t.data.drop (firstHdrPos t.data)) := by
  refine ⟨rfl, rfl, ?_⟩
  unfold containsCourseHeader at h
  unfold courseBlocks pyFindall
  rw [List.map_map]
  rw [show (String.data ∘ fun m : List Char × Caps => capStr m.2 1)
      = fun m : List Char × Caps => (capGet m.2 1).getD [] from rfl]
  exact courseBlocks_data_join h

/-- C10 witness: at a concrete two-block text with leading narrative, the
joined blocks are the text from the first header on. -/
theorem claim10_witness :
    update_place_links ratingSampleText
      = joinStr ((courseBlocks ratingSampleText).map processLinkBlock)
    ∧ joinL ((courseBlocks ratingSampleText).map String.data)
        = stripNl (ratingSampleText.data.drop (firstHdrPos ratingSampleText.data)) := by
  have H := claim10_blocks ratingSampleText (fun _ => none) (by decide)
  exact ⟨H.1, H.2.2⟩

end DateCourse

